import Mathlib

/-!
Formal model of the CeBrA event-builder column aggregator (`src/channel_data.rs`).

The aggregator stores one growable column of `f64` per `ChannelDataField`, keyed by a
`BTreeMap`, together with a row counter.  The `f64` values are carried opaquely: the code
only stores and moves them, never computes with them, so they are modelled by the
rationals; the sentinel `-1.0e6` is the rational `-1000000`.

The `BTreeMap<ChannelDataField, Vec<f64>>` is modelled as a function
`ChannelDataField → Option (List ℚ)` (`none` = key absent).  A `BTreeMap` iterates in
ascending key order, which for the derived `Ord` of a Rust enum is declaration order;
iteration is therefore modelled by walking `ChannelDataField.get_field_vec` (the
declaration-order list) and keeping the present keys.
-/

set_option maxHeartbeats 1000000

/-- Model of `const INVALID_VALUE: f64 = -1.0e6;`. -/
def INVALID_VALUE : ℚ := -1000000

/-- The 21 logical output columns, in Rust declaration order
(`ChannelDataField` in `channel_data.rs`). -/
inductive ChannelDataField where
  | Cebra0Energy | Cebra1Energy | Cebra2Energy | Cebra3Energy
  | Cebra4Energy | Cebra5Energy | Cebra6Energy
  | Cebra0Short | Cebra1Short | Cebra2Short | Cebra3Short
  | Cebra4Short | Cebra5Short | Cebra6Short
  | Cebra0Time | Cebra1Time | Cebra2Time | Cebra3Time
  | Cebra4Time | Cebra5Time | Cebra6Time
  deriving DecidableEq, Fintype

/-- The `AsRefStr` derive: the stable column name of each field is its variant name. -/
def ChannelDataField.as_ref : ChannelDataField → String
  | .Cebra0Energy => "Cebra0Energy"
  | .Cebra1Energy => "Cebra1Energy"
  | .Cebra2Energy => "Cebra2Energy"
  | .Cebra3Energy => "Cebra3Energy"
  | .Cebra4Energy => "Cebra4Energy"
  | .Cebra5Energy => "Cebra5Energy"
  | .Cebra6Energy => "Cebra6Energy"
  | .Cebra0Short => "Cebra0Short"
  | .Cebra1Short => "Cebra1Short"
  | .Cebra2Short => "Cebra2Short"
  | .Cebra3Short => "Cebra3Short"
  | .Cebra4Short => "Cebra4Short"
  | .Cebra5Short => "Cebra5Short"
  | .Cebra6Short => "Cebra6Short"
  | .Cebra0Time => "Cebra0Time"
  | .Cebra1Time => "Cebra1Time"
  | .Cebra2Time => "Cebra2Time"
  | .Cebra3Time => "Cebra3Time"
  | .Cebra4Time => "Cebra4Time"
  | .Cebra5Time => "Cebra5Time"
  | .Cebra6Time => "Cebra6Time"

/-- The rank of a field in the derived `Ord` of the Rust enum: its declaration index. -/
def ChannelDataField.toIdx : ChannelDataField → Nat
  | .Cebra0Energy => 0
  | .Cebra1Energy => 1
  | .Cebra2Energy => 2
  | .Cebra3Energy => 3
  | .Cebra4Energy => 4
  | .Cebra5Energy => 5
  | .Cebra6Energy => 6
  | .Cebra0Short => 7
  | .Cebra1Short => 8
  | .Cebra2Short => 9
  | .Cebra3Short => 10
  | .Cebra4Short => 11
  | .Cebra5Short => 12
  | .Cebra6Short => 13
  | .Cebra0Time => 14
  | .Cebra1Time => 15
  | .Cebra2Time => 16
  | .Cebra3Time => 17
  | .Cebra4Time => 18
  | .Cebra5Time => 19
  | .Cebra6Time => 20

/-- Model of `ChannelDataField::get_field_vec()`: the `EnumIter` derive iterates the variants in
declaration order. -/
def ChannelDataField.get_field_vec : List ChannelDataField :=
  [.Cebra0Energy, .Cebra1Energy, .Cebra2Energy, .Cebra3Energy,
   .Cebra4Energy, .Cebra5Energy, .Cebra6Energy,
   .Cebra0Short, .Cebra1Short, .Cebra2Short, .Cebra3Short,
   .Cebra4Short, .Cebra5Short, .Cebra6Short,
   .Cebra0Time, .Cebra1Time, .Cebra2Time, .Cebra3Time,
   .Cebra4Time, .Cebra5Time, .Cebra6Time]

/-- Modelled from the spec: the `ChannelType` enum of `channel_map.rs`, which is not under
`src/`.  Per §3 and §4.2 of the spec, logical channel roles partition into the fixed set of
seven detector roles this aggregator understands plus possibly other device roles that it
ignores; the single `Other` constructor stands for every role outside the fixed set,
matching the `_ => continue` arm of `append_event`. -/
inductive ChannelType where
  | Cebra0 | Cebra1 | Cebra2 | Cebra3 | Cebra4 | Cebra5 | Cebra6
  | Other
  deriving DecidableEq, Fintype

/-- Modelled from the spec: the `CompassData` raw hit record of `compass_data.rs`, which is
not under `src/`.  Per §3 of the spec a raw hit carries an opaque hardware identifier
(resolvable by the channel map, modelled as a natural number), a primary amplitude, a
short-gate amplitude and a timestamp; only the four fields read by `append_event` are
modelled. -/
structure CompassData where
  uuid : Nat
  energy : ℚ
  energy_short : ℚ
  timestamp : ℚ
  deriving DecidableEq

/-- Modelled from the spec: the channel-map entry returned by
`ChannelMap::get_channel_data`; only its `channel_type` field is read by `append_event`. -/
structure ChannelSettings where
  channel_type : ChannelType

/-- Modelled from the spec: the `ChannelMap` collaborator of `channel_map.rs`, which is not
under `src/`.  Per §6 of the spec it is a deterministic, read-only lookup
`resolve(hardware_id) -> Option<role>`. -/
structure ChannelMap where
  get_channel_data : Nat → Option ChannelSettings

/-- The aggregator state (`struct ChannelData`): one column per present field plus the row
counter. -/
structure ChannelData where
  fields : ChannelDataField → Option (List ℚ)
  rows : Nat

/-- Insertion into the map model (`BTreeMap::insert`). -/
def insertField (m : ChannelDataField → Option (List ℚ)) (f : ChannelDataField)
    (v : List ℚ) : ChannelDataField → Option (List ℚ) :=
  fun g => if g = f then some v else m g

/-- Model of `ChannelData::default()`: one empty column inserted per registry field, row counter 0. -/
def ChannelData.default : ChannelData :=
  { fields := ChannelDataField.get_field_vec.foldl (fun m f => insertField m f []) (fun _ => none)
    rows := 0 }

/-- Model of `ChannelData::push_defaults`: every present column still shorter than the row counter
gets one sentinel appended. -/
def ChannelData.push_defaults (s : ChannelData) : ChannelData :=
  { s with
    fields := fun f =>
      (s.fields f).map (fun l => if l.length < s.rows then l ++ [INVALID_VALUE] else l) }

/-- Model of `ChannelData::set_value`: overwrite the last element of the given field, guarded by the
two `Option` checks (`fields.get_mut` present, `last_mut` nonempty). -/
def ChannelData.set_value (s : ChannelData) (field : ChannelDataField) (value : ℚ) :
    ChannelData :=
  match s.fields field with
  | some (x :: xs) =>
      { s with
        fields := fun g =>
          if g = field then some ((x :: xs).dropLast ++ [value]) else s.fields g }
  | some [] => s
  | none => s

/-- The per-hit body of the dispatch loop of `ChannelData::append_event`: resolve the hit
through the map and, for a known role, write its three values into the three associated
fields; `None` resolutions and roles outside the fixed set are skipped. -/
def ChannelData.process_hit (s : ChannelData) (hit : CompassData) (map : ChannelMap) :
    ChannelData :=
  match map.get_channel_data hit.uuid with
  | none => s
  | some channel_data =>
    match channel_data.channel_type with
    | ChannelType.Cebra0 =>
        ((s.set_value .Cebra0Energy hit.energy).set_value .Cebra0Short
          hit.energy_short).set_value .Cebra0Time hit.timestamp
    | ChannelType.Cebra1 =>
        ((s.set_value .Cebra1Energy hit.energy).set_value .Cebra1Short
          hit.energy_short).set_value .Cebra1Time hit.timestamp
    | ChannelType.Cebra2 =>
        ((s.set_value .Cebra2Energy hit.energy).set_value .Cebra2Short
          hit.energy_short).set_value .Cebra2Time hit.timestamp
    | ChannelType.Cebra3 =>
        ((s.set_value .Cebra3Energy hit.energy).set_value .Cebra3Short
          hit.energy_short).set_value .Cebra3Time hit.timestamp
    | ChannelType.Cebra4 =>
        ((s.set_value .Cebra4Energy hit.energy).set_value .Cebra4Short
          hit.energy_short).set_value .Cebra4Time hit.timestamp
    | ChannelType.Cebra5 =>
        ((s.set_value .Cebra5Energy hit.energy).set_value .Cebra5Short
          hit.energy_short).set_value .Cebra5Time hit.timestamp
    | ChannelType.Cebra6 =>
        ((s.set_value .Cebra6Energy hit.energy).set_value .Cebra6Short
          hit.energy_short).set_value .Cebra6Time hit.timestamp
    | ChannelType.Other => s

/-- Model of `ChannelData::append_event`: bump the row counter, pad every column with the sentinel,
then dispatch each hit of the event in order. -/
def ChannelData.append_event (s : ChannelData) (event : List CompassData)
    (map : ChannelMap) : ChannelData :=
  event.foldl (fun acc hit => acc.process_hit hit map)
    ({ s with rows := s.rows + 1 }).push_defaults

/-- Model of `ChannelData::convert_to_series`: one `(name, column)` pair per present field, in
`BTreeMap` iteration order, i.e. ascending derived-`Ord` order, i.e. declaration order. -/
def ChannelData.convert_to_series (s : ChannelData) : List (String × List ℚ) :=
  ChannelDataField.get_field_vec.filterMap
    (fun f => (s.fields f).map (fun l => (f.as_ref, l)))

/-- A whole run: fold `append_event` over a list of (event, channel map) pairs. -/
def ChannelData.append_events (s : ChannelData)
    (evs : List (List CompassData × ChannelMap)) : ChannelData :=
  evs.foldl (fun acc p => acc.append_event p.1 p.2) s

/-- Boolean test: the hit resolves through the map to exactly the role `t`. -/
def resolvesToB (m : ChannelMap) (hit : CompassData) (t : ChannelType) : Bool :=
  match m.get_channel_data hit.uuid with
  | some cd => cd.channel_type = t
  | none => false

/-- The three fields (energy, short, time) associated with a known role; `none` for roles
outside the fixed set. -/
def ChannelType.fieldsOf : ChannelType → Option (ChannelDataField × ChannelDataField × ChannelDataField)
  | .Cebra0 => some (.Cebra0Energy, .Cebra0Short, .Cebra0Time)
  | .Cebra1 => some (.Cebra1Energy, .Cebra1Short, .Cebra1Time)
  | .Cebra2 => some (.Cebra2Energy, .Cebra2Short, .Cebra2Time)
  | .Cebra3 => some (.Cebra3Energy, .Cebra3Short, .Cebra3Time)
  | .Cebra4 => some (.Cebra4Energy, .Cebra4Short, .Cebra4Time)
  | .Cebra5 => some (.Cebra5Energy, .Cebra5Short, .Cebra5Time)
  | .Cebra6 => some (.Cebra6Energy, .Cebra6Short, .Cebra6Time)
  | .Other => none

/-- Boolean test: the hit resolves to some role of the fixed set (a role with fields). -/
def hitKnownB (m : ChannelMap) (hit : CompassData) : Bool :=
  match m.get_channel_data hit.uuid with
  | some cd => cd.channel_type.fieldsOf.isSome
  | none => false

/-- The fields `process_hit` may write for a given hit. -/
def hitTargets (m : ChannelMap) (hit : CompassData) : List ChannelDataField :=
  match m.get_channel_data hit.uuid with
  | none => []
  | some cd =>
    match cd.channel_type.fieldsOf with
    | none => []
    | some (e, sh, ti) => [e, sh, ti]

/-- The column-alignment invariant: every registry field is present and its column length
equals the row counter. -/
def ChannelData.wf (s : ChannelData) : Prop :=
  ∀ f, ∃ l, s.fields f = some l ∧ l.length = s.rows

/-! ## Basic lemmas about the state operations -/

lemma fields_default (f : ChannelDataField) : ChannelData.default.fields f = some [] := by
  cases f <;> rfl

lemma default_rows : ChannelData.default.rows = 0 := rfl

lemma default_wf : ChannelData.default.wf := by
  intro f
  exact ⟨[], fields_default f, by simp [default_rows]⟩

lemma wf_iff_colLen (s : ChannelData) :
    s.wf ↔ ∀ f, (s.fields f).map List.length = some s.rows := by
  constructor
  · intro h f
    obtain ⟨l, hl, hlen⟩ := h f
    simp [hl, hlen]
  · intro h f
    specialize h f
    cases hf : s.fields f with
    | none => rw [hf] at h; simp at h
    | some l =>
      rw [hf] at h
      simp at h
      exact ⟨l, rfl, h⟩

lemma set_value_rows (s : ChannelData) (f : ChannelDataField) (v : ℚ) :
    (s.set_value f v).rows = s.rows := by
  unfold ChannelData.set_value
  split <;> rfl

lemma set_value_fields_ne (s : ChannelData) (f g : ChannelDataField) (v : ℚ)
    (h : g ≠ f) : (s.set_value f v).fields g = s.fields g := by
  unfold ChannelData.set_value
  split <;> simp [h]

lemma set_value_colLen (s : ChannelData) (f g : ChannelDataField) (v : ℚ) :
    ((s.set_value f v).fields g).map List.length = (s.fields g).map List.length := by
  unfold ChannelData.set_value
  split
  · rename_i x xs heq
    by_cases hg : g = f
    · subst hg
      simp [heq]
    · simp [hg]
  · rfl
  · rfl

lemma process_hit_rows (s : ChannelData) (hit : CompassData) (m : ChannelMap) :
    (s.process_hit hit m).rows = s.rows := by
  unfold ChannelData.process_hit
  split
  · rfl
  · split <;> simp [set_value_rows]

lemma process_hit_colLen (s : ChannelData) (hit : CompassData) (m : ChannelMap)
    (g : ChannelDataField) :
    ((s.process_hit hit m).fields g).map List.length = (s.fields g).map List.length := by
  unfold ChannelData.process_hit
  split
  · rfl
  · split <;> simp [set_value_colLen]

lemma foldl_process_rows (m : ChannelMap) (hits : List CompassData) (s : ChannelData) :
    (hits.foldl (fun acc hit => acc.process_hit hit m) s).rows = s.rows := by
  induction hits generalizing s with
  | nil => rfl
  | cons h t ih => simp only [List.foldl_cons]; rw [ih, process_hit_rows]

lemma foldl_process_colLen (m : ChannelMap) (hits : List CompassData) (s : ChannelData)
    (g : ChannelDataField) :
    ((hits.foldl (fun acc hit => acc.process_hit hit m) s).fields g).map List.length
      = (s.fields g).map List.length := by
  induction hits generalizing s with
  | nil => rfl
  | cons h t ih => simp only [List.foldl_cons]; rw [ih, process_hit_colLen]

lemma push_defaults_rows (s : ChannelData) : s.push_defaults.rows = s.rows := rfl

/-- After bumping the row counter, padding appends exactly one sentinel to every column of
a well-formed state. -/
lemma padded_fields (s : ChannelData) (h : s.wf) (f : ChannelDataField) :
    ∃ l, s.fields f = some l ∧ l.length = s.rows ∧
      (({ s with rows := s.rows + 1 }).push_defaults).fields f
        = some (l ++ [INVALID_VALUE]) := by
  obtain ⟨l, hl, hlen⟩ := h f
  refine ⟨l, hl, hlen, ?_⟩
  simp [ChannelData.push_defaults, hl, hlen]

lemma append_event_rows (s : ChannelData) (ev : List CompassData) (m : ChannelMap) :
    (s.append_event ev m).rows = s.rows + 1 := by
  unfold ChannelData.append_event
  rw [foldl_process_rows, push_defaults_rows]

lemma append_event_wf (s : ChannelData) (ev : List CompassData) (m : ChannelMap)
    (h : s.wf) : (s.append_event ev m).wf := by
  rw [wf_iff_colLen]
  intro f
  rw [append_event_rows]
  unfold ChannelData.append_event
  rw [foldl_process_colLen]
  obtain ⟨l, _, hlen, hpad⟩ := padded_fields s h f
  simp [hpad, hlen]

lemma append_events_wf (s : ChannelData) (evs : List (List CompassData × ChannelMap))
    (h : s.wf) : (s.append_events evs).wf := by
  induction evs generalizing s with
  | nil => exact h
  | cons p t ih => exact ih _ (append_event_wf _ _ _ h)

lemma append_events_rows (s : ChannelData) (evs : List (List CompassData × ChannelMap)) :
    (s.append_events evs).rows = s.rows + evs.length := by
  induction evs generalizing s with
  | nil => rfl
  | cons p t ih =>
    show ((s.append_event p.1 p.2).append_events t).rows = s.rows + (t.length + 1)
    rw [ih, append_event_rows]
    omega

/-! ## Frame lemmas: which fields a hit can touch -/

lemma set_value3_fields_ne (s : ChannelData) (e sh ti g : ChannelDataField)
    (v1 v2 v3 : ℚ) (h1 : g ≠ e) (h2 : g ≠ sh) (h3 : g ≠ ti) :
    (((s.set_value e v1).set_value sh v2).set_value ti v3).fields g = s.fields g := by
  rw [set_value_fields_ne _ _ _ _ h3, set_value_fields_ne _ _ _ _ h2,
    set_value_fields_ne _ _ _ _ h1]

/-- Evaluation of `process_hit` when the map has no entry for the hit: the hit is skipped. -/
lemma process_hit_eq_none (s : ChannelData) (hit : CompassData) (m : ChannelMap)
    (heq : m.get_channel_data hit.uuid = none) : s.process_hit hit m = s := by
  unfold ChannelData.process_hit
  rw [heq]

/-- Evaluation of `process_hit` when the map resolves the hit: the dispatch over the role factors
through `ChannelType.fieldsOf`. -/
lemma process_hit_eq_some (s : ChannelData) (hit : CompassData) (m : ChannelMap)
    (cd : ChannelSettings) (heq : m.get_channel_data hit.uuid = some cd) :
    s.process_hit hit m =
      match cd.channel_type.fieldsOf with
      | none => s
      | some (e, sh, ti) =>
          ((s.set_value e hit.energy).set_value sh hit.energy_short).set_value ti
            hit.timestamp := by
  unfold ChannelData.process_hit
  rw [heq]
  obtain ⟨ct⟩ := cd
  cases ct <;> rfl

lemma hitTargets_eq_none (m : ChannelMap) (hit : CompassData)
    (heq : m.get_channel_data hit.uuid = none) : hitTargets m hit = [] := by
  unfold hitTargets
  rw [heq]

lemma hitTargets_eq_some (m : ChannelMap) (hit : CompassData) (cd : ChannelSettings)
    (heq : m.get_channel_data hit.uuid = some cd) :
    hitTargets m hit =
      match cd.channel_type.fieldsOf with
      | none => []
      | some (e, sh, ti) => [e, sh, ti] := by
  unfold hitTargets
  rw [heq]

lemma process_hit_frame (s : ChannelData) (hit : CompassData) (m : ChannelMap)
    (g : ChannelDataField) (hg : g ∉ hitTargets m hit) :
    (s.process_hit hit m).fields g = s.fields g := by
  cases heq : m.get_channel_data hit.uuid with
  | none => rw [process_hit_eq_none s hit m heq]
  | some cd =>
    rw [process_hit_eq_some s hit m cd heq]
    rw [hitTargets_eq_some m hit cd heq] at hg
    cases hf : cd.channel_type.fieldsOf with
    | none => rfl
    | some val =>
      rw [hf] at hg
      obtain ⟨e, sh, ti⟩ := val
      simp only [List.mem_cons, List.not_mem_nil, or_false, not_or] at hg
      exact set_value3_fields_ne _ _ _ _ _ _ _ _ hg.1 hg.2.1 hg.2.2

lemma fieldsOf_disjoint (t t' : ChannelType) (e sh ti e' sh' ti' : ChannelDataField)
    (hne : t ≠ t') (h : t.fieldsOf = some (e, sh, ti))
    (h' : t'.fieldsOf = some (e', sh', ti')) :
    e ∉ [e', sh', ti'] ∧ sh ∉ [e', sh', ti'] ∧ ti ∉ [e', sh', ti'] := by
  cases t <;> cases t' <;> simp [ChannelType.fieldsOf] at h h' <;>
    first
      | exact absurd rfl hne
      | (obtain ⟨rfl, rfl, rfl⟩ := h
         obtain ⟨rfl, rfl, rfl⟩ := h'
         decide)

lemma not_resolves_notMem_targets (m : ChannelMap) (hit : CompassData) (t : ChannelType)
    (e sh ti : ChannelDataField) (hf : t.fieldsOf = some (e, sh, ti))
    (hno : resolvesToB m hit t = false) :
    e ∉ hitTargets m hit ∧ sh ∉ hitTargets m hit ∧ ti ∉ hitTargets m hit := by
  unfold hitTargets
  unfold resolvesToB at hno
  split
  · simp
  · rename_i cd heq
    rw [heq] at hno
    have hne : cd.channel_type ≠ t := by simpa using hno
    split
    · simp
    · rename_i e' sh' ti' hf'
      exact fieldsOf_disjoint t cd.channel_type e sh ti e' sh' ti' (Ne.symm hne) hf hf'

lemma foldl_process_frame (m : ChannelMap) (hits : List CompassData) (s : ChannelData)
    (g : ChannelDataField) (hg : ∀ h ∈ hits, g ∉ hitTargets m h) :
    (hits.foldl (fun acc hit => acc.process_hit hit m) s).fields g = s.fields g := by
  induction hits generalizing s with
  | nil => rfl
  | cons h t ih =>
    simp only [List.foldl_cons]
    rw [ih _ (fun x hx => hg x (List.mem_cons_of_mem _ hx)),
      process_hit_frame _ _ _ _ (hg h (List.mem_cons_self _ _))]

/-! ## Claim theorems C1, C2 -/

/-- Claim C1: starting from the default ChannelData state, after any sequence of N
append_event calls (with arbitrary events and channel maps) the row counter equals N and
every one of the registry columns has length exactly N. -/
theorem column_length_invariant (evs : List (List CompassData × ChannelMap)) :
    (ChannelData.default.append_events evs).rows = evs.length ∧
    ∀ f, ∃ l, (ChannelData.default.append_events evs).fields f = some l ∧
      l.length = evs.length := by
  have hwf := append_events_wf _ evs default_wf
  have hrows : (ChannelData.default.append_events evs).rows = evs.length := by
    rw [append_events_rows, default_rows, Nat.zero_add]
  refine ⟨hrows, fun f => ?_⟩
  obtain ⟨l, hl, hlen⟩ := hwf f
  exact ⟨l, hl, by rw [hlen, hrows]⟩

/-- Claim C2: if the k-th event (here the event after `evs`, so k = evs.length + 1)
contains no hit resolving to the known role `t`, then after that append_event call the
three columns of `t` hold the sentinel INVALID_VALUE at row index k - 1 = evs.length,
never a missing cell. -/
theorem sentinel_fill (evs : List (List CompassData × ChannelMap))
    (ev : List CompassData) (m : ChannelMap) (t : ChannelType)
    (e sh ti : ChannelDataField) (hf : t.fieldsOf = some (e, sh, ti))
    (hno : ∀ hit ∈ ev, resolvesToB m hit t = false) :
    ∀ f, f = e ∨ f = sh ∨ f = ti →
      ∃ l, ((ChannelData.default.append_events evs).append_event ev m).fields f = some l ∧
        l[evs.length]? = some INVALID_VALUE := by
  intro f hmem
  have hwf : (ChannelData.default.append_events evs).wf :=
    append_events_wf _ evs default_wf
  have hrows : (ChannelData.default.append_events evs).rows = evs.length := by
    rw [append_events_rows, default_rows, Nat.zero_add]
  obtain ⟨l, _, hlen, hpad⟩ := padded_fields _ hwf f
  have hnotmem : ∀ hit ∈ ev, f ∉ hitTargets m hit := by
    intro hit hhit
    obtain ⟨he, hsh, hti⟩ := not_resolves_notMem_targets m hit t e sh ti hf (hno hit hhit)
    rcases hmem with rfl | rfl | rfl
    · exact he
    · exact hsh
    · exact hti
  refine ⟨l ++ [INVALID_VALUE], ?_, ?_⟩
  · unfold ChannelData.append_event
    rw [foldl_process_frame _ _ _ _ hnotmem, hpad]
  · rw [← hrows, ← hlen]
    exact List.getElem?_concat_length l INVALID_VALUE

/-! ## Write lemmas: what a resolved hit stores -/

lemma set_value_fields_self (s : ChannelData) (f : ChannelDataField) (v : ℚ) (l : List ℚ)
    (h : s.fields f = some l) (hne : l ≠ []) :
    (s.set_value f v).fields f = some (l.dropLast ++ [v]) := by
  unfold ChannelData.set_value
  split
  · rename_i x xs heq
    rw [h] at heq
    injection heq with heq2
    subst heq2
    simp
  · rename_i heq
    rw [h] at heq
    injection heq with heq2
    exact absurd heq2 hne
  · rename_i heq
    rw [h] at heq
    simp at heq

lemma fieldsOf_distinct (t : ChannelType) (e sh ti : ChannelDataField)
    (hf : t.fieldsOf = some (e, sh, ti)) : e ≠ sh ∧ e ≠ ti ∧ sh ≠ ti := by
  cases t <;> simp [ChannelType.fieldsOf] at hf <;>
    (obtain ⟨rfl, rfl, rfl⟩ := hf; decide)

/-- All registry columns present and nonempty; this holds right after the padding step. -/
def ChannelData.allNonempty (s : ChannelData) : Prop :=
  ∀ f, ∃ l, s.fields f = some l ∧ l ≠ []

lemma allNonempty_of_colLen {s s' : ChannelData}
    (h : ∀ g, ((s'.fields g).map List.length) = ((s.fields g).map List.length))
    (hQ : s.allNonempty) : s'.allNonempty := by
  intro f
  obtain ⟨l, hl, hne⟩ := hQ f
  have hlen := h f
  rw [hl] at hlen
  cases hf : s'.fields f with
  | none => rw [hf] at hlen; simp at hlen
  | some l' =>
    rw [hf] at hlen
    simp at hlen
    refine ⟨l', rfl, fun hl' => ?_⟩
    subst hl'
    simp at hlen
    exact hne (List.length_eq_zero.mp hlen.symm)

lemma process_hit_allNonempty (s : ChannelData) (hit : CompassData) (m : ChannelMap)
    (hQ : s.allNonempty) : (s.process_hit hit m).allNonempty :=
  allNonempty_of_colLen (fun g => process_hit_colLen s hit m g) hQ

lemma foldl_process_allNonempty (m : ChannelMap) (hits : List CompassData)
    (s : ChannelData) (hQ : s.allNonempty) :
    (hits.foldl (fun acc hit => acc.process_hit hit m) s).allNonempty :=
  allNonempty_of_colLen (fun g => foldl_process_colLen m hits s g) hQ

/-- Three successive `set_value` writes on pairwise distinct fields of a state whose
columns are all nonempty: each of the three columns ends in the written value. -/
lemma set_value3_reads (s : ChannelData) (e sh ti : ChannelDataField) (v1 v2 v3 : ℚ)
    (hes : e ≠ sh) (het : e ≠ ti) (hst : sh ≠ ti) (hQ : s.allNonempty) :
    (∃ l, (((s.set_value e v1).set_value sh v2).set_value ti v3).fields e = some l ∧
        l.getLast? = some v1) ∧
    (∃ l, (((s.set_value e v1).set_value sh v2).set_value ti v3).fields sh = some l ∧
        l.getLast? = some v2) ∧
    (∃ l, (((s.set_value e v1).set_value sh v2).set_value ti v3).fields ti = some l ∧
        l.getLast? = some v3) := by
  obtain ⟨le, hle, hnee⟩ := hQ e
  obtain ⟨lsh, hlsh, hnesh⟩ := hQ sh
  obtain ⟨lti, hlti, hneti⟩ := hQ ti
  refine ⟨⟨le.dropLast ++ [v1], ?_, List.getLast?_concat _⟩,
    ⟨lsh.dropLast ++ [v2], ?_, List.getLast?_concat _⟩,
    ⟨lti.dropLast ++ [v3], ?_, List.getLast?_concat _⟩⟩
  · rw [set_value_fields_ne _ _ _ _ het, set_value_fields_ne _ _ _ _ hes]
    exact set_value_fields_self s e v1 le hle hnee
  · rw [set_value_fields_ne _ _ _ _ hst]
    have hsh1 : (s.set_value e v1).fields sh = some lsh := by
      rw [set_value_fields_ne _ _ _ _ (Ne.symm hes)]
      exact hlsh
    exact set_value_fields_self _ sh v2 lsh hsh1 hnesh
  · have hti2 : ((s.set_value e v1).set_value sh v2).fields ti = some lti := by
      rw [set_value_fields_ne _ _ _ _ (Ne.symm hst),
        set_value_fields_ne _ _ _ _ (Ne.symm het)]
      exact hlti
    exact set_value_fields_self _ ti v3 lti hti2 hneti

/-- A hit that resolves to the known role `t` writes its three values as the last cells of
the three columns of `t`. -/
lemma process_hit_writes (s : ChannelData) (hit : CompassData) (m : ChannelMap)
    (t : ChannelType) (e sh ti : ChannelDataField) (hf : t.fieldsOf = some (e, sh, ti))
    (hres : resolvesToB m hit t = true) (hQ : s.allNonempty) :
    (∃ l, (s.process_hit hit m).fields e = some l ∧ l.getLast? = some hit.energy) ∧
    (∃ l, (s.process_hit hit m).fields sh = some l ∧ l.getLast? = some hit.energy_short) ∧
    (∃ l, (s.process_hit hit m).fields ti = some l ∧ l.getLast? = some hit.timestamp) := by
  unfold resolvesToB at hres
  obtain ⟨hes, het, hst⟩ := fieldsOf_distinct t e sh ti hf
  cases heq : m.get_channel_data hit.uuid with
  | none => rw [heq] at hres; simp at hres
  | some cd =>
    rw [heq] at hres
    have hct : cd.channel_type = t := by simpa using hres
    rw [process_hit_eq_some s hit m cd heq, hct, hf]
    exact set_value3_reads s e sh ti hit.energy hit.energy_short hit.timestamp hes het hst hQ

/-! ## Decomposing an event at its last hit for a role -/

lemma filter_getLast_decomp {α : Type} (p : α → Bool) (as : List α) (a : α)
    (h : (as.filter p).getLast? = some a) :
    p a = true ∧ ∃ pre post, as = pre ++ a :: post ∧ ∀ b ∈ post, p b = false := by
  induction as with
  | nil => simp at h
  | cons x xs ih =>
    cases hpx : p x with
    | true =>
      rw [List.filter_cons_of_pos hpx] at h
      cases hfx : (xs.filter p).getLast? with
      | some b =>
        have hcons : (x :: xs.filter p).getLast? = (xs.filter p).getLast? := by
          cases hh : xs.filter p with
          | nil => rw [hh] at hfx; simp at hfx
          | cons y ys => exact List.getLast?_cons_cons
        rw [hcons, hfx] at h
        injection h with hba
        subst hba
        obtain ⟨hpa, pre, post, heq, hpost⟩ := ih hfx
        exact ⟨hpa, x :: pre, post, by rw [heq]; rfl, hpost⟩
      | none =>
        have hnil : xs.filter p = [] := List.getLast?_eq_none_iff.mp hfx
        rw [hnil] at h
        simp at h
        subst h
        refine ⟨hpx, [], xs, rfl, fun b hb => ?_⟩
        have := List.filter_eq_nil_iff.mp hnil b hb
        simpa using this
    | false =>
      rw [List.filter_cons_of_neg (by simp [hpx])] at h
      obtain ⟨hpa, pre, post, heq, hpost⟩ := ih h
      exact ⟨hpa, x :: pre, post, by rw [heq]; rfl, hpost⟩

/-- Folding the dispatch loop over an event whose last hit resolving to `t` is `hit`
leaves the three columns of `t` ending in the three values of `hit`. -/
lemma foldl_process_last_write (m : ChannelMap) (t : ChannelType)
    (e sh ti : ChannelDataField) (hf : t.fieldsOf = some (e, sh, ti))
    (hits : List CompassData) (s : ChannelData) (hQ : s.allNonempty)
    (hit : CompassData)
    (hlast : (hits.filter (fun h => resolvesToB m h t)).getLast? = some hit) :
    (∃ l, (hits.foldl (fun acc h => acc.process_hit h m) s).fields e = some l ∧
        l.getLast? = some hit.energy) ∧
    (∃ l, (hits.foldl (fun acc h => acc.process_hit h m) s).fields sh = some l ∧
        l.getLast? = some hit.energy_short) ∧
    (∃ l, (hits.foldl (fun acc h => acc.process_hit h m) s).fields ti = some l ∧
        l.getLast? = some hit.timestamp) := by
  obtain ⟨hres, pre, post, rfl, hpost⟩ := filter_getLast_decomp _ hits hit hlast
  have hQ1 : (pre.foldl (fun acc h => acc.process_hit h m) s).allNonempty :=
    foldl_process_allNonempty m pre s hQ
  have hw := process_hit_writes _ hit m t e sh ti hf hres hQ1
  have hframe : ∀ f, f = e ∨ f = sh ∨ f = ti →
      (post.foldl (fun acc h => acc.process_hit h m)
        ((pre.foldl (fun acc h => acc.process_hit h m) s).process_hit hit m)).fields f
      = ((pre.foldl (fun acc h => acc.process_hit h m) s).process_hit hit m).fields f := by
    intro f hmem
    apply foldl_process_frame
    intro h hh
    obtain ⟨he, hsh, hti⟩ := not_resolves_notMem_targets m h t e sh ti hf (hpost h hh)
    rcases hmem with rfl | rfl | rfl
    · exact he
    · exact hsh
    · exact hti
  refine ⟨?_, ?_, ?_⟩
  · obtain ⟨l, hl, hgl⟩ := hw.1
    refine ⟨l, ?_, hgl⟩
    rw [List.foldl_append, List.foldl_cons, hframe e (Or.inl rfl)]
    exact hl
  · obtain ⟨l, hl, hgl⟩ := hw.2.1
    refine ⟨l, ?_, hgl⟩
    rw [List.foldl_append, List.foldl_cons, hframe sh (Or.inr (Or.inl rfl))]
    exact hl
  · obtain ⟨l, hl, hgl⟩ := hw.2.2
    refine ⟨l, ?_, hgl⟩
    rw [List.foldl_append, List.foldl_cons, hframe ti (Or.inr (Or.inr rfl))]
    exact hl

lemma padded_allNonempty (s : ChannelData) (hs : s.wf) :
    (({ s with rows := s.rows + 1 }).push_defaults).allNonempty := by
  intro f
  obtain ⟨l, _, _, hpad⟩ := padded_fields s hs f
  exact ⟨l ++ [INVALID_VALUE], hpad, by simp⟩

/-! ## Claim theorems C3, C4 -/

/-- Claim C3: for every well-formed state and every event containing two or more hits
resolving to the same known role `t`, after append_event the last row of the three fields
of `t` equals the (energy, energy_short, timestamp) triple of the last such hit in
iteration order; earlier hits for those fields are overwritten and nothing fails. -/
theorem last_write_wins (s : ChannelData) (hs : s.wf) (ev : List CompassData)
    (m : ChannelMap) (t : ChannelType) (e sh ti : ChannelDataField)
    (hf : t.fieldsOf = some (e, sh, ti))
    (h2 : 2 ≤ (ev.filter (fun hit => resolvesToB m hit t)).length)
    (hit : CompassData)
    (hlast : (ev.filter (fun hit => resolvesToB m hit t)).getLast? = some hit) :
    (∃ l, (s.append_event ev m).fields e = some l ∧ l.getLast? = some hit.energy) ∧
    (∃ l, (s.append_event ev m).fields sh = some l ∧
        l.getLast? = some hit.energy_short) ∧
    (∃ l, (s.append_event ev m).fields ti = some l ∧
        l.getLast? = some hit.timestamp) := by
  unfold ChannelData.append_event
  exact foldl_process_last_write m t e sh ti hf ev _ (padded_allNonempty s hs) hit hlast

lemma process_hit_unknown (s : ChannelData) (hit : CompassData) (m : ChannelMap)
    (h : hitKnownB m hit = false) : s.process_hit hit m = s := by
  unfold hitKnownB at h
  cases heq : m.get_channel_data hit.uuid with
  | none => exact process_hit_eq_none s hit m heq
  | some cd =>
    rw [heq] at h
    have h3 : cd.channel_type.fieldsOf.isSome = false := h
    rw [process_hit_eq_some s hit m cd heq]
    cases hfo : cd.channel_type.fieldsOf with
    | none => rfl
    | some v => rw [hfo] at h3; simp at h3

lemma foldl_process_unknown (m : ChannelMap) (hits : List CompassData) (s : ChannelData)
    (h : ∀ hit ∈ hits, hitKnownB m hit = false) :
    hits.foldl (fun acc hit => acc.process_hit hit m) s = s := by
  induction hits generalizing s with
  | nil => rfl
  | cons x xs ih =>
    simp only [List.foldl_cons]
    rw [process_hit_unknown s x m (h x (List.mem_cons_self _ _))]
    exact ih _ (fun b hb => h b (List.mem_cons_of_mem _ hb))

/-- Claim C4: an event all of whose hits either fail resolution or resolve to a role
outside the fixed set is a silent skip for each hit (identical handling of both failure
kinds), increments the row counter by exactly 1, and leaves every field ending in the
sentinel value. -/
theorem unknown_hit_tolerance (s : ChannelData) (hs : s.wf) (ev : List CompassData)
    (m : ChannelMap) (hunk : ∀ hit ∈ ev, hitKnownB m hit = false) :
    (∀ s1 : ChannelData, ∀ hit ∈ ev, s1.process_hit hit m = s1) ∧
    (s.append_event ev m).rows = s.rows + 1 ∧
    ∀ f, ∃ l, (s.append_event ev m).fields f = some l ∧
      l.getLast? = some INVALID_VALUE := by
  refine ⟨fun s1 hit hh => process_hit_unknown s1 hit m (hunk hit hh),
    append_event_rows s ev m, fun f => ?_⟩
  obtain ⟨l, _, _, hpad⟩ := padded_fields s hs f
  unfold ChannelData.append_event
  rw [foldl_process_unknown m ev _ hunk, hpad]
  exact ⟨l ++ [INVALID_VALUE], rfl, List.getLast?_concat _⟩

/-! ## finalize / convert_to_series shape -/

lemma convert_names_lengths (s : ChannelData) (hwf : s.wf) :
    s.convert_to_series.map Prod.fst
      = ChannelDataField.get_field_vec.map ChannelDataField.as_ref ∧
    ∀ p ∈ s.convert_to_series, p.2.length = s.rows := by
  unfold ChannelData.convert_to_series
  have key : ∀ L : List ChannelDataField,
      (L.filterMap (fun f => (s.fields f).map (fun l => (f.as_ref, l)))).map Prod.fst
        = L.map ChannelDataField.as_ref ∧
      ∀ p ∈ L.filterMap (fun f => (s.fields f).map (fun l => (f.as_ref, l))),
        p.2.length = s.rows := by
    intro L
    induction L with
    | nil => simp
    | cons f L ih =>
      obtain ⟨l, hl, hlen⟩ := hwf f
      simp only [List.filterMap_cons, hl, Option.map_some]
      constructor
      · simp [ih.1]
      · intro p hp
        rcases List.mem_cons.mp hp with hp1 | hp2
        · subst hp1
          exact hlen
        · exact ih.2 p hp2
  exact key _

/-- Claim C5: for every reachable state, finalize returns exactly one named column per
registry field, named by the field, of length equal to the row counter, in the registry
canonical order; the name sequence is the same constant for every run, regardless of the
events or of the order in which hits arrived. -/
theorem finalize_shape (evs : List (List CompassData × ChannelMap)) :
    (ChannelData.default.append_events evs).convert_to_series.length = 21 ∧
    (ChannelData.default.append_events evs).convert_to_series.map Prod.fst =
      ["Cebra0Energy", "Cebra1Energy", "Cebra2Energy", "Cebra3Energy",
       "Cebra4Energy", "Cebra5Energy", "Cebra6Energy",
       "Cebra0Short", "Cebra1Short", "Cebra2Short", "Cebra3Short",
       "Cebra4Short", "Cebra5Short", "Cebra6Short",
       "Cebra0Time", "Cebra1Time", "Cebra2Time", "Cebra3Time",
       "Cebra4Time", "Cebra5Time", "Cebra6Time"] ∧
    ∀ p ∈ (ChannelData.default.append_events evs).convert_to_series,
      p.2.length = (ChannelData.default.append_events evs).rows := by
  have hwf := append_events_wf _ evs default_wf
  obtain ⟨hnames, hlens⟩ := convert_names_lengths _ hwf
  refine ⟨?_, ?_, hlens⟩
  · have hlen := congrArg List.length hnames
    simpa using hlen
  · rw [hnames]
    rfl

/-- Claim C8: the registry is exactly 21 fields whose canonical order is the enum
declaration order (the seven energies, then the seven short-gate fields, then the seven
times), this order is strictly ascending in the derived-Ord rank, and finalize therefore
emits columns grouped by field kind, not per detector channel. -/
theorem registry_canonical_order :
    ChannelDataField.get_field_vec.length = 21 ∧
    ChannelDataField.get_field_vec =
      [.Cebra0Energy, .Cebra1Energy, .Cebra2Energy, .Cebra3Energy,
       .Cebra4Energy, .Cebra5Energy, .Cebra6Energy,
       .Cebra0Short, .Cebra1Short, .Cebra2Short, .Cebra3Short,
       .Cebra4Short, .Cebra5Short, .Cebra6Short,
       .Cebra0Time, .Cebra1Time, .Cebra2Time, .Cebra3Time,
       .Cebra4Time, .Cebra5Time, .Cebra6Time] ∧
    ChannelDataField.get_field_vec.map ChannelDataField.toIdx = List.range 21 ∧
    ChannelData.default.convert_to_series.map Prod.fst =
      ["Cebra0Energy", "Cebra1Energy", "Cebra2Energy", "Cebra3Energy",
       "Cebra4Energy", "Cebra5Energy", "Cebra6Energy",
       "Cebra0Short", "Cebra1Short", "Cebra2Short", "Cebra3Short",
       "Cebra4Short", "Cebra5Short", "Cebra6Short",
       "Cebra0Time", "Cebra1Time", "Cebra2Time", "Cebra3Time",
       "Cebra4Time", "Cebra5Time", "Cebra6Time"] :=
  ⟨rfl, rfl, by decide, by rfl⟩

/-! ## The round-trip scenario (instance of the spec test, roles A = Cebra0, B = Cebra1) -/

/-- The scenario channel map: hardware id 0 resolves to Cebra0, id 1 to Cebra1, every
other id is unmapped. -/
def scenarioMap : ChannelMap :=
  ⟨fun uuid =>
    if uuid = 0 then some ⟨ChannelType.Cebra0⟩
    else if uuid = 1 then some ⟨ChannelType.Cebra1⟩
    else none⟩

/-- Event 1: one hit resolving to Cebra0 with values (10.0, 1.0, 100.0). -/
def scenarioEvent1 : List CompassData := [⟨0, 10, 1, 100⟩]

/-- Event 2: one hit resolving to Cebra1 with values (20.0, 2.0, 200.0), plus one hit on
the unmapped hardware id 99. -/
def scenarioEvent2 : List CompassData := [⟨1, 20, 2, 200⟩, ⟨99, 5, 5, 5⟩]

/-- The finalize output of the scenario run. -/
def scenarioFinal : List (String × List ℚ) :=
  ((ChannelData.default.append_event scenarioEvent1 scenarioMap).append_event
    scenarioEvent2 scenarioMap).convert_to_series

/-- Claim C6: the round-trip scenario with A = Cebra0, B = Cebra1 produces
Cebra0Energy = [10, SENTINEL], Cebra0Short = [1, SENTINEL], Cebra0Time = [100, SENTINEL],
Cebra1Energy = [SENTINEL, 20], Cebra1Short = [SENTINEL, 2], Cebra1Time = [SENTINEL, 200],
with SENTINEL = INVALID_VALUE = -1.0e6 and every other column [SENTINEL, SENTINEL]; all
21 columns have length 2. -/
theorem round_trip_scenario :
    scenarioFinal =
      [("Cebra0Energy", [10, INVALID_VALUE]),
       ("Cebra1Energy", [INVALID_VALUE, 20]),
       ("Cebra2Energy", [INVALID_VALUE, INVALID_VALUE]),
       ("Cebra3Energy", [INVALID_VALUE, INVALID_VALUE]),
       ("Cebra4Energy", [INVALID_VALUE, INVALID_VALUE]),
       ("Cebra5Energy", [INVALID_VALUE, INVALID_VALUE]),
       ("Cebra6Energy", [INVALID_VALUE, INVALID_VALUE]),
       ("Cebra0Short", [1, INVALID_VALUE]),
       ("Cebra1Short", [INVALID_VALUE, 2]),
       ("Cebra2Short", [INVALID_VALUE, INVALID_VALUE]),
       ("Cebra3Short", [INVALID_VALUE, INVALID_VALUE]),
       ("Cebra4Short", [INVALID_VALUE, INVALID_VALUE]),
       ("Cebra5Short", [INVALID_VALUE, INVALID_VALUE]),
       ("Cebra6Short", [INVALID_VALUE, INVALID_VALUE]),
       ("Cebra0Time", [100, INVALID_VALUE]),
       ("Cebra1Time", [INVALID_VALUE, 200]),
       ("Cebra2Time", [INVALID_VALUE, INVALID_VALUE]),
       ("Cebra3Time", [INVALID_VALUE, INVALID_VALUE]),
       ("Cebra4Time", [INVALID_VALUE, INVALID_VALUE]),
       ("Cebra5Time", [INVALID_VALUE, INVALID_VALUE]),
       ("Cebra6Time", [INVALID_VALUE, INVALID_VALUE])] ∧
    ∀ p ∈ scenarioFinal, p.2.length = 2 := by
  constructor
  · decide
  · decide

/-! ## The frame property of append_event -/

lemma set_value_extends (s0 s : ChannelData) (g : ChannelDataField) (w : ℚ)
    (h : ∀ f l, s0.fields f = some l → ∃ v, s.fields f = some (l ++ [v])) :
    ∀ f l, s0.fields f = some l → ∃ v, (s.set_value g w).fields f = some (l ++ [v]) := by
  intro f l hl
  obtain ⟨v, hv⟩ := h f l hl
  by_cases hfg : f = g
  · subst hfg
    refine ⟨w, ?_⟩
    have hw := set_value_fields_self s f w (l ++ [v]) hv (by simp)
    rw [hw, List.dropLast_concat]
  · exact ⟨v, by rw [set_value_fields_ne _ _ _ _ hfg]; exact hv⟩

lemma process_hit_extends (m : ChannelMap) (x : CompassData) (s0 s : ChannelData)
    (h : ∀ f l, s0.fields f = some l → ∃ v, s.fields f = some (l ++ [v])) :
    ∀ f l, s0.fields f = some l →
      ∃ v, (s.process_hit x m).fields f = some (l ++ [v]) := by
  cases heq : m.get_channel_data x.uuid with
  | none => rw [process_hit_eq_none s x m heq]; exact h
  | some cd =>
    rw [process_hit_eq_some s x m cd heq]
    cases hfo : cd.channel_type.fieldsOf with
    | none => exact h
    | some val =>
      obtain ⟨e, sh, ti⟩ := val
      exact set_value_extends s0 _ ti x.timestamp
        (set_value_extends s0 _ sh x.energy_short
          (set_value_extends s0 _ e x.energy h))

lemma foldl_process_extends (m : ChannelMap) (hits : List CompassData)
    (s0 s : ChannelData)
    (h : ∀ f l, s0.fields f = some l → ∃ v, s.fields f = some (l ++ [v])) :
    ∀ f l, s0.fields f = some l →
      ∃ v, (hits.foldl (fun acc hit => acc.process_hit hit m) s).fields f
        = some (l ++ [v]) := by
  induction hits generalizing s with
  | nil => exact h
  | cons x xs ih =>
    simp only [List.foldl_cons]
    exact ih _ (process_hit_extends m x s0 s h)

/-- Claim C7: append_event only appends and overwrites the newest row: for every
well-formed state, each column after the call is the column before the call with exactly
one value appended, so the old column is a prefix of the new one (no cell below the old
length changes, nothing shrinks), and the row counter increases by exactly 1. -/
theorem append_event_frame (s : ChannelData) (hs : s.wf) (ev : List CompassData)
    (m : ChannelMap) :
    (s.append_event ev m).rows = s.rows + 1 ∧
    ∀ f l, s.fields f = some l →
      ∃ v, (s.append_event ev m).fields f = some (l ++ [v]) ∧
        l <+: (l ++ [v]) ∧ (l ++ [v]).length = l.length + 1 := by
  refine ⟨append_event_rows s ev m, fun f l hl => ?_⟩
  have hbase : ∀ f l, s.fields f = some l →
      ∃ v, (({ s with rows := s.rows + 1 }).push_defaults).fields f = some (l ++ [v]) := by
    intro f1 l1 hl1
    obtain ⟨l2, hl2, _, hpad⟩ := padded_fields s hs f1
    rw [hl1] at hl2
    injection hl2 with hll
    subst hll
    exact ⟨INVALID_VALUE, hpad⟩
  obtain ⟨v, hv⟩ := foldl_process_extends m ev s _ hbase f l hl
  refine ⟨v, ?_, List.prefix_append l [v], by simp⟩
  unfold ChannelData.append_event
  exact hv

/-! ## Writing the sentinel over a sentinel is invisible -/

lemma ChannelData.ext_fields (s s' : ChannelData) (hf : ∀ g, s.fields g = s'.fields g)
    (hr : s.rows = s'.rows) : s = s' := by
  cases s with
  | mk fl r =>
    cases s' with
    | mk fl' r' =>
      simp only at hf hr
      subst hr
      have : fl = fl' := funext hf
      subst this
      rfl

/-- Overwriting the last cell with the value it already holds does not change the state. -/
lemma set_value_noop (s : ChannelData) (f : ChannelDataField) (v : ℚ) (l : List ℚ)
    (h : s.fields f = some l) (hlast : l.getLast? = some v) :
    s.set_value f v = s := by
  unfold ChannelData.set_value
  split
  · rename_i x xs heq
    rw [h] at heq
    injection heq with hll
    subst hll
    have hl2 : (x :: xs).dropLast ++ [v] = x :: xs :=
      List.dropLast_append_getLast? v (Option.mem_def.mpr hlast)
    apply ChannelData.ext_fields
    · intro g
      by_cases hg : g = f
      · show (if g = f then some ((x :: xs).dropLast ++ [v]) else s.fields g)
          = s.fields g
        rw [if_pos hg, hl2, hg, h]
      · show (if g = f then some ((x :: xs).dropLast ++ [v]) else s.fields g)
          = s.fields g
        rw [if_neg hg]
    · rfl
  · rfl
  · rfl

/-- Claim C9: the sentinel is the ordinary value -1.0e6, not a distinguished marker: on a
well-formed state, appending an event whose single hit resolves to a known role and
carries energy = energy_short = timestamp = INVALID_VALUE produces exactly the same state
as appending an empty event. -/
theorem sentinel_indistinguishable (s : ChannelData) (hs : s.wf) (m : ChannelMap)
    (hit : CompassData) (hk : hitKnownB m hit = true)
    (he : hit.energy = INVALID_VALUE) (hsh : hit.energy_short = INVALID_VALUE)
    (hti : hit.timestamp = INVALID_VALUE) :
    s.append_event [hit] m = s.append_event [] m := by
  unfold ChannelData.append_event
  simp only [List.foldl_cons, List.foldl_nil]
  have hlastI : ∀ f, ∃ l,
      (({ s with rows := s.rows + 1 }).push_defaults).fields f = some l ∧
        l.getLast? = some INVALID_VALUE := by
    intro f
    obtain ⟨l, _, _, hpad⟩ := padded_fields s hs f
    exact ⟨l ++ [INVALID_VALUE], hpad, List.getLast?_concat _⟩
  unfold hitKnownB at hk
  cases heq : m.get_channel_data hit.uuid with
  | none => rw [heq] at hk; simp at hk
  | some cd =>
    rw [heq] at hk
    have hk2 : cd.channel_type.fieldsOf.isSome = true := hk
    rw [process_hit_eq_some _ hit m cd heq]
    cases hfo : cd.channel_type.fieldsOf with
    | none => simp [hfo] at hk2
    | some val =>
      obtain ⟨e, sh, ti⟩ := val
      show (((({ s with rows := s.rows + 1 }).push_defaults).set_value e
          hit.energy).set_value sh hit.energy_short).set_value ti hit.timestamp
        = ({ s with rows := s.rows + 1 }).push_defaults
      obtain ⟨le, hle, hgle⟩ := hlastI e
      have h1 : (({ s with rows := s.rows + 1 }).push_defaults).set_value e hit.energy
          = ({ s with rows := s.rows + 1 }).push_defaults := by
        rw [he]
        exact set_value_noop _ e _ le hle hgle
      rw [h1]
      obtain ⟨lsh, hlsh, hglsh⟩ := hlastI sh
      have h2 : (({ s with rows := s.rows + 1 }).push_defaults).set_value sh
          hit.energy_short = ({ s with rows := s.rows + 1 }).push_defaults := by
        rw [hsh]
        exact set_value_noop _ sh _ lsh hlsh hglsh
      rw [h2]
      obtain ⟨lti, hlti, hglti⟩ := hlastI ti
      rw [hti]
      exact set_value_noop _ ti _ lti hlti hglti

/-- Claim C10: append_event and convert_to_series are total functions of the state (they
are plain functions in this model, with no partiality anywhere), and in particular the two
Option guards of set_value turn a lookup of an absent field, or an overwrite attempted on
an empty column, into a silent no-op rather than a failure. -/
theorem set_value_guard_noop :
    (∀ (s : ChannelData) (f : ChannelDataField) (v : ℚ),
        s.fields f = none → s.set_value f v = s) ∧
    (∀ (s : ChannelData) (f : ChannelDataField) (v : ℚ),
        s.fields f = some [] → s.set_value f v = s) := by
  constructor
  · intro s f v h
    unfold ChannelData.set_value
    split
    · rename_i x xs heq
      rw [h] at heq
      simp at heq
    · rfl
    · rfl
  · intro s f v h
    unfold ChannelData.set_value
    split
    · rename_i x xs heq
      rw [h] at heq
      simp at heq
    · rfl
    · rfl

/-! ## Concrete witnesses -/

/-- Witness for sentinel_fill: the first event of a run is empty, so after it the three
Cebra0 columns hold the sentinel at row index 0. -/
theorem sentinel_fill_witness :
    ChannelType.Cebra0.fieldsOf
      = some (ChannelDataField.Cebra0Energy, ChannelDataField.Cebra0Short,
          ChannelDataField.Cebra0Time) ∧
    (∀ hit ∈ ([] : List CompassData),
      resolvesToB scenarioMap hit ChannelType.Cebra0 = false) ∧
    ∀ f, f = ChannelDataField.Cebra0Energy ∨ f = ChannelDataField.Cebra0Short ∨
        f = ChannelDataField.Cebra0Time →
      ∃ l, ((ChannelData.default.append_events []).append_event [] scenarioMap).fields f
          = some l ∧ l[(0 : Nat)]? = some INVALID_VALUE :=
  ⟨rfl, by simp, sentinel_fill [] [] scenarioMap ChannelType.Cebra0 _ _ _ rfl (by simp)⟩

/-- Witness for last_write_wins: two hits on hardware id 0 (role Cebra0) in one event; the
second hit (4, 5, 6) wins. -/
theorem last_write_wins_witness :
    ChannelData.default.wf ∧
    ChannelType.Cebra0.fieldsOf = some (ChannelDataField.Cebra0Energy,
      ChannelDataField.Cebra0Short, ChannelDataField.Cebra0Time) ∧
    2 ≤ (([⟨0, 1, 2, 3⟩, ⟨0, 4, 5, 6⟩] : List CompassData).filter
      (fun hit => resolvesToB scenarioMap hit ChannelType.Cebra0)).length ∧
    (([⟨0, 1, 2, 3⟩, ⟨0, 4, 5, 6⟩] : List CompassData).filter
      (fun hit => resolvesToB scenarioMap hit ChannelType.Cebra0)).getLast?
      = some ⟨0, 4, 5, 6⟩ ∧
    ((∃ l, (ChannelData.default.append_event [⟨0, 1, 2, 3⟩, ⟨0, 4, 5, 6⟩]
          scenarioMap).fields ChannelDataField.Cebra0Energy = some l ∧
        l.getLast? = some (4 : ℚ)) ∧
     (∃ l, (ChannelData.default.append_event [⟨0, 1, 2, 3⟩, ⟨0, 4, 5, 6⟩]
          scenarioMap).fields ChannelDataField.Cebra0Short = some l ∧
        l.getLast? = some (5 : ℚ)) ∧
     (∃ l, (ChannelData.default.append_event [⟨0, 1, 2, 3⟩, ⟨0, 4, 5, 6⟩]
          scenarioMap).fields ChannelDataField.Cebra0Time = some l ∧
        l.getLast? = some (6 : ℚ))) :=
  ⟨default_wf, rfl, by decide, by decide,
    last_write_wins ChannelData.default default_wf _ scenarioMap ChannelType.Cebra0
      _ _ _ rfl (by decide) ⟨0, 4, 5, 6⟩ (by decide)⟩

/-- Witness for unknown_hit_tolerance: one hit on the unmapped hardware id 99. -/
theorem unknown_hit_tolerance_witness :
    ChannelData.default.wf ∧
    (∀ hit ∈ ([⟨99, 7, 8, 9⟩] : List CompassData), hitKnownB scenarioMap hit = false) ∧
    ((∀ s1 : ChannelData, ∀ hit ∈ ([⟨99, 7, 8, 9⟩] : List CompassData),
        s1.process_hit hit scenarioMap = s1) ∧
     (ChannelData.default.append_event [⟨99, 7, 8, 9⟩] scenarioMap).rows
        = ChannelData.default.rows + 1 ∧
     ∀ f, ∃ l, (ChannelData.default.append_event [⟨99, 7, 8, 9⟩] scenarioMap).fields f
          = some l ∧ l.getLast? = some INVALID_VALUE) :=
  ⟨default_wf, by decide,
    unknown_hit_tolerance ChannelData.default default_wf _ scenarioMap (by decide)⟩

/-- Witness for append_event_frame at the default state and an empty event. -/
theorem append_event_frame_witness :
    ChannelData.default.wf ∧
    ((ChannelData.default.append_event [] scenarioMap).rows
        = ChannelData.default.rows + 1 ∧
     ∀ f l, ChannelData.default.fields f = some l →
       ∃ v, (ChannelData.default.append_event [] scenarioMap).fields f
           = some (l ++ [v]) ∧
         l <+: (l ++ [v]) ∧ (l ++ [v]).length = l.length + 1) :=
  ⟨default_wf, append_event_frame ChannelData.default default_wf [] scenarioMap⟩

/-- Witness for sentinel_indistinguishable: a Cebra0 hit whose three values all equal the
sentinel behaves exactly like no hit at all. -/
theorem sentinel_indistinguishable_witness :
    ChannelData.default.wf ∧
    hitKnownB scenarioMap ⟨0, INVALID_VALUE, INVALID_VALUE, INVALID_VALUE⟩ = true ∧
    ChannelData.default.append_event
        [⟨0, INVALID_VALUE, INVALID_VALUE, INVALID_VALUE⟩] scenarioMap
      = ChannelData.default.append_event [] scenarioMap :=
  ⟨default_wf, by decide,
    sentinel_indistinguishable ChannelData.default default_wf scenarioMap
      ⟨0, INVALID_VALUE, INVALID_VALUE, INVALID_VALUE⟩ (by decide) rfl rfl rfl⟩

/-- Witness for set_value_guard_noop: an absent field on a keyless state, and the empty
column of the default state. -/
theorem set_value_guard_noop_witness :
    (ChannelData.mk (fun _ => none) 0).fields ChannelDataField.Cebra0Energy = none ∧
    (ChannelData.mk (fun _ => none) 0).set_value ChannelDataField.Cebra0Energy 5
      = ChannelData.mk (fun _ => none) 0 ∧
    ChannelData.default.fields ChannelDataField.Cebra0Energy = some [] ∧
    ChannelData.default.set_value ChannelDataField.Cebra0Energy 5
      = ChannelData.default :=
  ⟨rfl, set_value_guard_noop.1 _ _ _ rfl, fields_default _,
    set_value_guard_noop.2 _ _ _ (fields_default _)⟩
